import Mathlib

/-!
Verification of the pycomputrac Computrac/Metastock decoder
(`pycomputrac/computrac.py`, the packaged module).

Shallow embedding conventions:
* a byte is a `Nat` (values < 256 where it matters), a binary buffer is a `List Nat`;
* Python `int` arithmetic is `ℤ` (`/` and `%` on `ℤ` are Euclidean division and
  modulus, which agree with Python floor division and `%` for positive divisors);
* `int(x)` applied to a non-integral number truncates toward zero, modelled by
  `ratTrunc` on `ℚ` and `pytrunc` on `ℤ`;
* machine floats are modelled by their exact rational values (`ℚ`); an IEEE-754
  single-precision bit pattern is a 4-tuple of bytes, with its exact value given
  by `ieeeVal` (`none` for the infinity/NaN exponent 255);
* fallible code returns `Except`, and the index-file readers, which mutate the
  catalog in place in the source, return the final state paired with the error
  raised, if any;
* file contents are passed in as byte lists; the `os.path.isfile` existence
  checks and the directory walk are outside the model.
-/

namespace Computrac

/-- Python `bytes.find`: index of the first occurrence, or -1 when absent
(`computrac.py`, `strip_null`). -/
def pyFind : List Nat → Nat → Int
  | [], _ => -1
  | a :: t, c =>
    if a = c then 0
    else
      let r := pyFind t c
      if r < 0 then -1 else r + 1

/-- Python slice `s[0:e]`: a negative `e` counts from the end of the list,
clamped at zero. -/
def pySliceTo (s : List Nat) (e : Int) : List Nat :=
  if e < 0 then s.take ((s.length : Int) + e).toNat else s.take e.toNat

/-- `strip_null(c_string, null)` from `computrac.py`: `c_string[0:c_string.find(null)]`. -/
def strip_null (s : List Nat) (nul : Nat := 0) : List Nat :=
  pySliceTo s (pyFind s nul)

/-- `os.path.dirname` for POSIX-style paths as used by the reader. -/
def dirname (p : String) : String :=
  String.intercalate "/" ((p.splitOn "/").dropLast)

/-- `os.path.join` for the two-argument uses in the reader. -/
def joinPath (d f : String) : String :=
  if d = "" then f else d ++ "/" ++ f

/-- `buf[off:off+len]` for a fixed-width field of a record buffer. -/
def sliceLen (b : List Nat) (off len : Nat) : List Nat :=
  (b.drop off).take len

/-- Little-endian unsigned 16-bit field at byte offset `off` (struct format `H`). -/
def le16 (b : List Nat) (off : Nat) : Nat :=
  b.getD off 0 + 256 * b.getD (off + 1) 0

/-- Little-endian signed 32-bit field at byte offset `off` (struct format `i`). -/
def sle32 (b : List Nat) (off : Nat) : Int :=
  let u := b.getD off 0 + 256 * b.getD (off + 1) 0 + 65536 * b.getD (off + 2) 0 +
    16777216 * b.getD (off + 3) 0
  if u < 2147483648 then (u : Int) else (u : Int) - 4294967296

/-- A calendar date as produced by `datetime.date`. -/
structure Date where
  year : Int
  month : Int
  day : Int
deriving DecidableEq

/-- Error raised by the `datetime.date` constructor on an impossible date. -/
inductive DateErr where
  | invalidDate
deriving DecidableEq

/-- Gregorian leap-year rule used by `datetime.date`. -/
def isLeapYear (y : Int) : Bool :=
  y % 4 == 0 && (y % 100 != 0 || y % 400 == 0)

/-- Length of a month as used by `datetime.date` validation. -/
def daysInMonth (y m : Int) : Int :=
  if m = 2 then (if isLeapYear y then 29 else 28)
  else if m = 4 ∨ m = 6 ∨ m = 9 ∨ m = 11 then 30
  else 31

/-- Validity condition of the `datetime.date` constructor
(years 1..9999, months 1..12, days bounded by the month length). -/
abbrev dateOK (y m d : Int) : Prop :=
  1 ≤ y ∧ y ≤ 9999 ∧ 1 ≤ m ∧ m ≤ 12 ∧ 1 ≤ d ∧ d ≤ daysInMonth y m

/-- The `datetime.date` constructor: a valid date or a raised error. -/
def mkDate (y m d : Int) : Except DateErr Date :=
  if dateOK y m d then .ok ⟨y, m, d⟩ else .error .invalidDate

/-- Python `int(q)` on an exact rational: truncation toward zero. -/
def ratTrunc (q : ℚ) : Int :=
  if 0 ≤ q then ⌊q⌋ else -⌊-q⌋

/-- Python `int(a / b)` for integers with `b > 0`: exact quotient truncated
toward zero. -/
def pytrunc (a b : Int) : Int :=
  if 0 ≤ a then a / b else -(-a / b)

/-- `fmsfloat2date(ms_date)` from `computrac.py`: add 19000000, truncate to an
integer `yyyymmdd`, split it by `int(yyyymmdd/10000)`,
`int((yyyymmdd - yyyy*10000)/100)` and `int(yyyymmdd % 100)`, map the
(1900, 0, 0) sentinel to 1900-01-01, and otherwise build a `datetime.date`. -/
def fmsfloat2date (v : ℚ) : Except DateErr Date :=
  let yyyymmdd := ratTrunc (v + 19000000)
  let yyyy := pytrunc yyyymmdd 10000
  let mm := pytrunc (yyyymmdd - yyyy * 10000) 100
  let dd := yyyymmdd % 100
  if yyyy = 1900 ∧ mm = 0 ∧ dd = 0 then .ok ⟨1900, 1, 1⟩
  else mkDate yyyy mm dd

/-- `fmsbin2ieee(ms_bin)` from `computrac.py`, at the level of the four
assembled IEEE bytes `(ieee[0], ieee[1], ieee[2], ieee[3])`.  A zero exponent
byte returns `float(0)`, whose IEEE-754 single-precision pattern is all zero
bytes.  Otherwise `sign = ms_bin[2] & 0x80` is or-ed into `ieee[3]`,
`ieee_exp = ms_bin[3] - 2` contributes `(ieee_exp >> 1) % 256` to `ieee[3]` and
`(ieee_exp << 7) % 256` to `ieee[2]` (Python integer arithmetic: the shift of a
negative value is a floor division), `ms_bin[2] & 0x7f` fills the rest of
`ieee[2]`, and the two low mantissa bytes are copied. -/
def fmsbin2ieee (ms : List Nat) : Nat × Nat × Nat × Nat :=
  if ms.getD 3 0 = 0 then (0, 0, 0, 0)
  else
    let sign := Nat.land (ms.getD 2 0) 0x80
    let ieeeExp : Int := (ms.getD 3 0 : Int) - 2
    let b3 := Nat.lor sign ((ieeeExp / 2) % 256).toNat
    let b2 := Nat.lor ((ieeeExp * 128) % 256).toNat (Nat.land (ms.getD 2 0) 0x7f)
    (ms.getD 0 0, ms.getD 1 0, b2, b3)

/-- The MBF decode byte assembly as the specification describes it: the IEEE
exponent is the 8-bit field value `exponent byte - 2` (taken mod 256), whose
high 7 bits sit in the top byte next to the sign bit taken from bit 7 of `m1`,
and whose low bit is the top bit of the next byte, followed by the 7 remaining
bits of `m1` and the unchanged bytes `m2`, `m3`. -/
def mbfDecodeSpec (ms : List Nat) : Nat × Nat × Nat × Nat :=
  let expField := (ms.getD 3 0 + 254) % 256
  let b3 := Nat.lor (Nat.land (ms.getD 2 0) 0x80) (expField / 2)
  let b2 := Nat.lor (expField % 2 * 128) (Nat.land (ms.getD 2 0) 0x7f)
  (ms.getD 0 0, ms.getD 1 0, b2, b3)

/-- Exact value of an IEEE-754 single-precision bit pattern given as bytes
`(b0, b1, b2, b3)`, little-endian; `none` for exponent field 255
(infinity/NaN, which have no rational value). -/
def ieeeVal : Nat × Nat × Nat × Nat → Option ℚ
  | (b0, b1, b2, b3) =>
    let sgn : ℚ := if 128 ≤ b3 then -1 else 1
    let e := b3 % 128 * 2 + b2 / 128
    let m := b2 % 128 * 65536 + b1 * 256 + b0
    if e = 255 then none
    else if e = 0 then some (sgn * (m : ℚ) / 2 ^ 149)
    else some (sgn * ((2 ^ 23 + m : ℕ) : ℚ) * 2 ^ e / 2 ^ 150)

/-- Value of the float returned by `fmsbin2ieee` (`struct.unpack` of the
assembled bytes). -/
def msDecodeVal (ms : List Nat) : Option ℚ :=
  ieeeVal (fmsbin2ieee ms)

/-- Value of a plain IEEE single-precision float stored at offset `off`
(struct format `f`, used for the emaster date fields). -/
def ieee32At (b : List Nat) (off : Nat) : Option ℚ :=
  ieeeVal (b.getD off 0, b.getD (off + 1) 0, b.getD (off + 2) 0, b.getD (off + 3) 0)

/-- One catalog entry, the tuple
`(symbol, name, first_dt, last_dt, freq, filename, num_fld, flag, master_name)`
built by the index-file readers.  Symbols and names are kept as the byte
strings produced by `strip_null`. -/
structure RefRecord where
  symbol : List Nat
  name : List Nat
  firstDate : Date
  lastDate : Date
  freq : Nat
  filename : String
  numFld : Nat
  flag : Nat
  sourceFile : String
deriving DecidableEq

/-- The mutable state of a `ComputracDir`: `_ticker_refdata`, `_name_tickers`,
`_master_files`, `num_files` and `max_file_num`.  Python dicts preserve
insertion order, so both indexes are association lists with unique keys. -/
structure Catalog where
  tickerRefdata : List (List Nat × RefRecord)
  nameTickers : List (List Nat × List (List Nat))
  masterFiles : List String
  numFiles : Nat
  maxFileNum : Nat
deriving DecidableEq

/-- The state after `__init__`/`reset_refdata`. -/
def emptyCatalog : Catalog :=
  ⟨[], [], [], 0, 0⟩

/-- Errors raised while reading an index file. -/
inductive CatErr where
  | alreadyRead (path : String)
  | headerShort
  | headerMismatch
  | truncated
  | duplicateTicker (oldPath newPath : String)
  | dateOverflow
  | invalidDate
deriving DecidableEq

/-- First-match association-list lookup (Python dict read). -/
def lookupA {α β : Type} [DecidableEq α] : List (α × β) → α → Option β
  | [], _ => none
  | (k, v) :: t, a => if k = a then some v else lookupA t a

/-- Replace the value stored at a key, keeping its position
(in-place mutation of a dict entry). -/
def updateA {α β : Type} [DecidableEq α] : List (α × β) → α → β → List (α × β)
  | [], _, _ => []
  | (k, v) :: t, a, b => if k = a then (k, b) :: t else (k, v) :: updateA t a b

/-- The record-insertion block shared by `read_emaster_file` and
`read_xmaster_file`: a symbol already present raises
`RuntimeError("Duplicate ticker from dir %s, new dir %s" % (old_record[5], filename))`
— `old_record[5]` and `filename` are the data-file paths of the old and the new
record — and otherwise the record is stored under its symbol and its symbol is
appended to the list of tickers of its name. -/
def insertRefRecord (cat : Catalog) (rec : RefRecord) : Except CatErr Catalog :=
  match lookupA cat.tickerRefdata rec.symbol with
  | some old => .error (.duplicateTicker old.filename rec.filename)
  | none =>
    let cat1 : Catalog := { cat with tickerRefdata := cat.tickerRefdata ++ [(rec.symbol, rec)] }
    match lookupA cat1.nameTickers rec.name with
    | some lst =>
      .ok { cat1 with nameTickers := updateA cat1.nameTickers rec.name (lst ++ [rec.symbol]) }
    | none =>
      .ok { cat1 with nameTickers := cat1.nameTickers ++ [(rec.name, [rec.symbol])] }

/-- Decode one 192-byte emaster record
(struct format `2x B 3x B 2x c x 21s 28s c 3x f 4x f 63x 53s`): file number at
offset 2, field count at 6, flag at 9, symbol bytes 11..31, name bytes 32..59,
periodicity at 60, first and last date as IEEE floats at 64 and 72, long name
bytes 139..191 overriding the name when its first byte is non-zero.  A date
whose float is non-finite or does not form a valid calendar date raises. -/
def decodeEmasterRecord (masterName : String) (b : List Nat) : Except CatErr RefRecord :=
  match ieee32At b 64 with
  | none => .error .dateOverflow
  | some fv =>
    match fmsfloat2date fv with
    | .error _ => .error .invalidDate
    | .ok firstDt =>
      match ieee32At b 72 with
      | none => .error .dateOverflow
      | some lv =>
        match fmsfloat2date lv with
        | .error _ => .error .invalidDate
        | .ok lastDt =>
          let symbol := strip_null (sliceLen b 11 21)
          let name0 := strip_null (sliceLen b 32 28)
          let name := if b.getD 139 0 ≠ 0 then strip_null (sliceLen b 139 53) else name0
          let filename := joinPath (dirname masterName) ("F" ++ toString (b.getD 2 0) ++ ".dat")
          .ok ⟨symbol, name, firstDt, lastDt, b.getD 60 0, filename, b.getD 6 0,
            b.getD 9 0, masterName⟩

/-- Decode one 150-byte xmaster record
(struct format `=x 15s 32s 14x c 2x H 13x i 20x i i i 34x`): symbol bytes
1..15, name bytes 16..47, periodicity at 62, file number at 65, and the two
redundant date integers at offsets 104 and 108, which must agree
(`assert first_dt_int == first_dt_int2`); the date splits as
`int(v/10000)`, `int((v % 10000)/100)`, `int(v % 100)` and feeds
`datetime.date`; the last date is the fixed sentinel 3000-12-31, the field
count 7 and the flag a space. -/
def decodeXmasterRecord (masterName : String) (b : List Nat) : Except CatErr RefRecord :=
  if sle32 b 104 ≠ sle32 b 108 then .error .headerMismatch
  else
    let v := sle32 b 104
    match mkDate (pytrunc v 10000) (pytrunc (v % 10000) 100) (v % 100) with
    | .error _ => .error .invalidDate
    | .ok firstDt =>
      let filename := joinPath (dirname masterName) ("F" ++ toString (le16 b 65) ++ ".mwd")
      .ok ⟨strip_null (sliceLen b 1 15), strip_null (sliceLen b 16 32), firstDt,
        ⟨3000, 12, 31⟩, b.getD 62 0, filename, 7, 32, masterName⟩

/-- The shared record loop of both index-file readers: read `recLen` bytes at a
time; a zero-length read ends the loop and appends the path to the merged-file
list; a non-empty short read fails the `assert (len(buf) == record_len)`;
otherwise the record is decoded and inserted, and an error raised by either
leaves the state mutated so far.  Returns the final state and the raised error,
if any. -/
def masterLoop (decode : List Nat → Except CatErr RefRecord) (recLen : Nat)
    (hrec : 0 < recLen) (path : String) (cat : Catalog) (body : List Nat) :
    Catalog × Option CatErr :=
  if h0 : body.length = 0 then
    ({ cat with masterFiles := cat.masterFiles ++ [path] }, none)
  else if hlt : body.length < recLen then (cat, some .truncated)
  else
    match decode (body.take recLen) with
    | .error e => (cat, some e)
    | .ok rec =>
      match insertRefRecord cat rec with
      | .error e => (cat, some e)
      | .ok cat1 => masterLoop decode recLen hrec path cat1 (body.drop recLen)
termination_by body.length
decreasing_by
  simp only [List.length_drop]
  omega

/-- `read_emaster_file` on the contents of the file: reject a path already in
`master_files`, read the 192-byte header (`H H 188x`, a shorter file fails
`struct.unpack`), store its two counters, then run the record loop. -/
def read_emaster_file (cat : Catalog) (path : String) (contents : List Nat) :
    Catalog × Option CatErr :=
  if path ∈ cat.masterFiles then (cat, some (.alreadyRead path))
  else if contents.length < 192 then (cat, some .headerShort)
  else
    let cat1 : Catalog := { cat with numFiles := le16 contents 0, maxFileNum := le16 contents 2 }
    masterLoop (decodeEmasterRecord path) 192 (by norm_num) path cat1 (contents.drop 192)

/-- `read_xmaster_file` on the contents of the file: reject a path already in
`master_files`, read the 150-byte header (`2x 2x 6x H 2x H 2x H 130x`), check
its two redundant file counts agree, add the count to `num_files`, then run the
record loop. -/
def read_xmaster_file (cat : Catalog) (path : String) (contents : List Nat) :
    Catalog × Option CatErr :=
  if path ∈ cat.masterFiles then (cat, some (.alreadyRead path))
  else if contents.length < 150 then (cat, some .headerShort)
  else if le16 contents 10 ≠ le16 contents 14 then (cat, some .headerMismatch)
  else
    let cat1 : Catalog :=
      { cat with numFiles := cat.numFiles + le16 contents 10, maxFileNum := le16 contents 18 }
    masterLoop (decodeXmasterRecord path) 150 (by norm_num) path cat1 (contents.drop 150)

/-- Errors raised by `get_reference_data`. -/
inductive LookupErr where
  | notFound (assetId : List Nat)
  | ambiguous (assetId : List Nat) (tickers : List (List Nat))
  | keyError
deriving DecidableEq

/-- `get_reference_data(asset_id)`: a known ticker returns its record; else a
known name bound to exactly one ticker returns that ticker record (a missing
ticker key would raise `KeyError`); a name bound to any other number of tickers
raises the multiple-ticker `LookupError` carrying the candidates; anything else
raises the not-found `LookupError`. -/
def get_reference_data (cat : Catalog) (assetId : List Nat) : Except LookupErr RefRecord :=
  match lookupA cat.tickerRefdata assetId with
  | some r => .ok r
  | none =>
    match lookupA cat.nameTickers assetId with
    | some lst =>
      if lst.length = 1 then
        match lookupA cat.tickerRefdata (lst.getD 0 []) with
        | some r => .ok r
        | none => .error .keyError
      else .error (.ambiguous assetId lst)
    | none => .error (.notFound assetId)

/-- Invariant of every catalog state the readers can build: each name is bound
to a non-empty list of symbols, all present in the ticker index. -/
def catalogWF (cat : Catalog) : Prop :=
  ∀ p ∈ cat.nameTickers, p.2 ≠ [] ∧ ∀ s ∈ p.2, (lookupA cat.tickerRefdata s).isSome

/-- Errors raised by `get_raw_data`. -/
inductive DataErr where
  | headerShort
  | valueError
  | truncated
  | indexError
  | dateOverflow
  | invalidDate
deriving DecidableEq

/-- One decoded row of the output array of `get_raw_data`: a calendar date and
six float values (`none` for a non-finite float). -/
structure Bar where
  date : Date
  openV : Option ℚ
  highV : Option ℚ
  lowV : Option ℚ
  closeV : Option ℚ
  volumeV : Option ℚ
  openInterestV : Option ℚ
deriving DecidableEq

/-- Decode one 28-byte data record: seven consecutive 4-byte fields through
`fmsbin2ieee`, the first routed through `fmsfloat2date` (a non-finite date
float fails `int()`, an impossible date fails `datetime.date`). -/
def decodeBarRecord (r : List Nat) : Except DataErr Bar :=
  match msDecodeVal (sliceLen r 0 4) with
  | none => .error .dateOverflow
  | some v =>
    match fmsfloat2date v with
    | .error _ => .error .invalidDate
    | .ok d =>
      .ok ⟨d, msDecodeVal (sliceLen r 4 4), msDecodeVal (sliceLen r 8 4),
        msDecodeVal (sliceLen r 12 4), msDecodeVal (sliceLen r 16 4),
        msDecodeVal (sliceLen r 20 4), msDecodeVal (sliceLen r 24 4)⟩

/-- The record loop of `get_raw_data`: read 28 bytes at a time; a zero-length
read ends the loop; a non-empty short read fails the length assert; otherwise
the record is decoded and written at index `rec_num` of the output array of
length `shape`, an out-of-range write raising `IndexError` (after the record
was decoded, since Python evaluates the right-hand side first). -/
def dataLoop (shape recNum : Nat) (body : List Nat) : Except DataErr (List Bar) :=
  if h0 : body.length = 0 then .ok []
  else if hlt : body.length < 28 then .error .truncated
  else
    match decodeBarRecord (body.take 28) with
    | .error e => .error e
    | .ok bar =>
      if recNum < shape then
        match dataLoop shape (recNum + 1) (body.drop 28) with
        | .error e => .error e
        | .ok bars => .ok (bar :: bars)
      else .error .indexError
termination_by body.length
decreasing_by
  simp only [List.length_drop]
  omega

/-- The file-reading core of `get_raw_data` on the contents of a data file:
read the 28-byte header `H H 24x` (a shorter file fails `struct.unpack`), take
the second field as `num_records`, allocate the output array with shape
`num_records - 1` (negative shape raises `ValueError`), and run the record
loop.  Returns the allocated length together with the rows actually written. -/
def get_raw_data (contents : List Nat) : Except DataErr (Nat × List Bar) :=
  if contents.length < 28 then .error .headerShort
  else
    let numRecords := le16 contents 2
    if numRecords = 0 then .error .valueError
    else
      match dataLoop (numRecords - 1) 0 (contents.drop 28) with
      | .error e => .error e
      | .ok bars => .ok (numRecords - 1, bars)

/-- Decode a list of 28-byte records in order, stopping at the first error;
used to state what the record loop produces. -/
def decodeBars : List (List Nat) → Except DataErr (List Bar)
  | [] => .ok []
  | r :: rs =>
    match decodeBarRecord r with
    | .error e => .error e
    | .ok b =>
      match decodeBars rs with
      | .error e => .error e
      | .ok bs => .ok (b :: bs)

instance {ε α : Type} [DecidableEq ε] [DecidableEq α] : DecidableEq (Except ε α) := fun x y =>
  match x, y with
  | .ok a, .ok b => if h : a = b then .isTrue (by rw [h]) else .isFalse (by simp [h])
  | .error a, .error b => if h : a = b then .isTrue (by rw [h]) else .isFalse (by simp [h])
  | .ok _, .error _ => .isFalse (by simp)
  | .error _, .ok _ => .isFalse (by simp)

instance (cat : Catalog) : Decidable (catalogWF cat) := by
  unfold catalogWF
  infer_instance

/-! ### Concrete fixtures used by witnesses and counterexamples -/

/-- A 28-byte data record of zero bytes: every field decodes to 0.0 and the
date 0.0 decodes to the 1900-01-01 sentinel. -/
def c1rec : List Nat :=
  [0, 0, 0, 0, 0, 0, 0, 0, 0, 0, 0, 0, 0, 0, 0, 0, 0, 0, 0, 0, 0, 0, 0, 0, 0, 0, 0, 0]

/-- The bar decoded from `c1rec`. -/
def c1barZero : Bar :=
  ⟨⟨1900, 1, 1⟩, some 0, some 0, some 0, some 0, some 0, some 0⟩

/-- A data file whose header declares 1 stored record but whose body holds one
whole 28-byte record. -/
def c1file : List Nat :=
  0 :: 0 :: 1 :: 0 :: (List.replicate 24 0 ++ c1rec)

/-- A data file whose header declares 2 stored records and whose body holds
exactly one whole 28-byte record. -/
def c1okfile : List Nat :=
  0 :: 0 :: 2 :: 0 :: (List.replicate 24 0 ++ c1rec)

/-- Fixture record loaded from the index file `d1/emaster`, with data file
`d1/F1.dat`. -/
def c5old : RefRecord :=
  ⟨[65], [78], ⟨2000, 1, 3⟩, ⟨2001, 1, 3⟩, 68, "d1/F1.dat", 7, 32, "d1/emaster"⟩

/-- Fixture record read later from the index file `d2/emaster`, with the same
symbol and data file `d2/F7.dat`. -/
def c5new : RefRecord :=
  ⟨[65], [77], ⟨2002, 1, 3⟩, ⟨2003, 1, 3⟩, 68, "d2/F7.dat", 7, 32, "d2/emaster"⟩

/-- Catalog state holding `c5old`. -/
def c5cat : Catalog :=
  ⟨[([65], c5old)], [([78], [[65]])], ["d1/emaster"], 1, 1⟩

/-- Fixture records for the lookup claims: two symbols share the name `[78]`,
one symbol carries the name `[79]`. -/
def c6recA : RefRecord :=
  ⟨[65], [78], ⟨2000, 1, 3⟩, ⟨2001, 1, 3⟩, 68, "d1/F1.dat", 7, 32, "d1/emaster"⟩

/-- Second record with the shared name `[78]`. -/
def c6recB : RefRecord :=
  ⟨[66], [78], ⟨2000, 1, 3⟩, ⟨2001, 1, 3⟩, 68, "d1/F2.dat", 7, 32, "d1/emaster"⟩

/-- Record with the unique name `[79]`. -/
def c6recC : RefRecord :=
  ⟨[67], [79], ⟨2000, 1, 3⟩, ⟨2001, 1, 3⟩, 68, "d1/F3.dat", 7, 32, "d1/emaster"⟩

/-- Catalog state holding the three lookup fixture records. -/
def c6cat : Catalog :=
  ⟨[([65], c6recA), ([66], c6recB), ([67], c6recC)],
    [([78], [[65], [66]]), ([79], [[67]])], ["d1/emaster"], 3, 3⟩

/-- Catalog with one record named `[78]` under symbol `[65]`. -/
def c7cat : Catalog :=
  ⟨[([65], c6recA)], [([78], [[65]])], ["d1/emaster"], 1, 1⟩

/-- A record with a fresh symbol `[66]` but the already-present name `[78]`. -/
def c7rec : RefRecord :=
  ⟨[66], [78], ⟨2000, 1, 3⟩, ⟨2001, 1, 3⟩, 68, "d1/F2.dat", 7, 32, "d1/emaster"⟩

/-- The catalog after inserting `c7rec` into `c7cat`. -/
def c7cat1 : Catalog :=
  ⟨[([65], c6recA), ([66], c7rec)], [([78], [[65], [66]])], ["d1/emaster"], 1, 1⟩

/-- A decode function that never succeeds, for exercising the loop shell. -/
def c8decode : List Nat → Except CatErr RefRecord := fun _ => .error .headerShort

/-- Fixture record for the partial-merge claim. -/
def c9rec : RefRecord :=
  ⟨[65], [78], ⟨2000, 1, 3⟩, ⟨2001, 1, 3⟩, 68, "d/F1.dat", 7, 32, "d/em"⟩

/-- A decode function returning `c9rec` for every chunk, so the second chunk
collides with the first. -/
def c9decode : List Nat → Except CatErr RefRecord := fun _ => .ok c9rec

/-- The catalog after the first (successful) insertion of `c9rec`. -/
def c9cat1 : Catalog :=
  ⟨[([65], c9rec)], [([78], [[65]])], [], 0, 0⟩

/-! ### Association-list lemmas -/

theorem lookupA_append_some {α β : Type} [DecidableEq α] {l : List (α × β)} {k : α} {v : β}
    (p : α × β) (h : lookupA l k = some v) : lookupA (l ++ [p]) k = some v := by
  induction l with
  | nil => simp [lookupA] at h
  | cons q t ih =>
    obtain ⟨k0, v0⟩ := q
    by_cases hk : k0 = k
    · simpa [lookupA, hk] using h
    · rw [List.cons_append, lookupA, if_neg hk]
      exact ih (by simpa [lookupA, hk] using h)

theorem lookupA_append_self {α β : Type} [DecidableEq α] {l : List (α × β)} {a : α} (b : β)
    (h : lookupA l a = none) : lookupA (l ++ [(a, b)]) a = some b := by
  induction l with
  | nil => simp [lookupA]
  | cons q t ih =>
    obtain ⟨k0, v0⟩ := q
    by_cases hk : k0 = a
    · simp [lookupA, hk] at h
    · rw [List.cons_append, lookupA, if_neg hk]
      exact ih (by simpa [lookupA, hk] using h)

theorem lookupA_append_ne {α β : Type} [DecidableEq α] {l : List (α × β)} {k a : α} (b : β)
    (h : k ≠ a) : lookupA (l ++ [(a, b)]) k = lookupA l k := by
  induction l with
  | nil =>
    simp only [List.nil_append, lookupA]
    rw [if_neg (Ne.symm h)]
  | cons q t ih =>
    obtain ⟨k0, v0⟩ := q
    by_cases hk : k0 = k
    · simp [lookupA, hk]
    · rw [List.cons_append, lookupA, if_neg hk, lookupA, if_neg hk, ih]

theorem lookupA_updateA_some {α β : Type} [DecidableEq α] {l : List (α × β)} {a : α} {v : β}
    (b : β) (h : lookupA l a = some v) : lookupA (updateA l a b) a = some b := by
  induction l with
  | nil => simp [lookupA] at h
  | cons q t ih =>
    obtain ⟨k0, v0⟩ := q
    by_cases hk : k0 = a
    · simp [updateA, lookupA, hk]
    · rw [updateA, if_neg hk, lookupA, if_neg hk]
      exact ih (by simpa [lookupA, hk] using h)

theorem lookupA_updateA_ne {α β : Type} [DecidableEq α] {l : List (α × β)} {k a : α} (b : β)
    (h : k ≠ a) : lookupA (updateA l a b) k = lookupA l k := by
  induction l with
  | nil => simp [updateA]
  | cons q t ih =>
    obtain ⟨k0, v0⟩ := q
    by_cases hk : k0 = a
    · rw [updateA, if_pos hk, lookupA, lookupA, if_neg, if_neg] <;> rw [hk] <;>
        exact fun hh => h hh.symm
    · rw [updateA, if_neg hk, lookupA, lookupA, ih]

theorem lookupA_mem {α β : Type} [DecidableEq α] {l : List (α × β)} {k : α} {v : β}
    (h : lookupA l k = some v) : (k, v) ∈ l := by
  induction l with
  | nil => simp [lookupA] at h
  | cons q t ih =>
    obtain ⟨k0, v0⟩ := q
    by_cases hk : k0 = k
    · rw [lookupA, if_pos hk] at h
      subst hk
      simp_all
    · rw [lookupA, if_neg hk] at h
      exact List.mem_cons_of_mem _ (ih h)

theorem mem_updateA {α β : Type} [DecidableEq α] {l : List (α × β)} {a : α} {b : β}
    {q : α × β} (h : q ∈ updateA l a b) : q ∈ l ∨ q = (a, b) := by
  induction l with
  | nil => simp [updateA] at h
  | cons p t ih =>
    obtain ⟨k0, v0⟩ := p
    by_cases hk : k0 = a
    · rw [updateA, if_pos hk] at h
      rcases List.mem_cons.mp h with h1 | h1
      · right
        rw [h1, hk]
      · left
        exact List.mem_cons_of_mem _ h1
    · rw [updateA, if_neg hk] at h
      rcases List.mem_cons.mp h with h1 | h1
      · left
        exact h1 ▸ List.mem_cons_self _ _
      · rcases ih h1 with h2 | h2
        · exact Or.inl (List.mem_cons_of_mem _ h2)
        · exact Or.inr h2

/-! ### Record-insertion lemmas -/

theorem insertRefRecord_dup {cat : Catalog} {rec old : RefRecord}
    (h : lookupA cat.tickerRefdata rec.symbol = some old) :
    insertRefRecord cat rec = .error (.duplicateTicker old.filename rec.filename) := by
  unfold insertRefRecord
  rw [h]

theorem insertRefRecord_ok_props {cat : Catalog} {rec : RefRecord} {cat1 : Catalog}
    (h : insertRefRecord cat rec = .ok cat1) :
    lookupA cat1.tickerRefdata rec.symbol = some rec ∧
    (∀ s r, lookupA cat.tickerRefdata s = some r → lookupA cat1.tickerRefdata s = some r) ∧
    lookupA cat1.nameTickers rec.name =
      some ((lookupA cat.nameTickers rec.name).getD [] ++ [rec.symbol]) ∧
    (∀ n, n ≠ rec.name → lookupA cat1.nameTickers n = lookupA cat.nameTickers n) ∧
    cat1.masterFiles = cat.masterFiles ∧
    (∀ n s, s ∈ (lookupA cat.nameTickers n).getD [] → s ∈ (lookupA cat1.nameTickers n).getD []) := by
  unfold insertRefRecord at h
  cases hsym : lookupA cat.tickerRefdata rec.symbol with
  | some old => rw [hsym] at h; exact absurd h (by simp)
  | none =>
    rw [hsym] at h
    dsimp only at h
    cases hname : lookupA cat.nameTickers rec.name with
    | some lst =>
      rw [hname] at h
      dsimp only at h
      obtain rfl := (Except.ok.inj h).symm
      dsimp only
      refine ⟨lookupA_append_self rec hsym, fun s r hs => lookupA_append_some _ hs, ?_, ?_, rfl, ?_⟩
      · simp only [Option.getD_some]
        exact lookupA_updateA_some _ hname
      · exact fun n hn => lookupA_updateA_ne _ hn
      · intro n s hs
        by_cases hn : n = rec.name
        · subst hn
          rw [hname] at hs
          rw [lookupA_updateA_some _ hname]
          simp only [Option.getD_some] at hs ⊢
          exact List.mem_append_left _ hs
        · rwa [lookupA_updateA_ne _ hn]
    | none =>
      rw [hname] at h
      dsimp only at h
      obtain rfl := (Except.ok.inj h).symm
      dsimp only
      refine ⟨lookupA_append_self rec hsym, fun s r hs => lookupA_append_some _ hs, ?_, ?_, rfl, ?_⟩
      · rw [lookupA_append_self _ hname]
        simp
      · exact fun n hn => lookupA_append_ne _ hn
      · intro n s hs
        by_cases hn : n = rec.name
        · subst hn
          rw [hname] at hs
          simp at hs
        · rwa [lookupA_append_ne _ hn]

theorem insertRefRecord_ok_of_fresh {cat : Catalog} {rec : RefRecord}
    (h : lookupA cat.tickerRefdata rec.symbol = none) :
    ∃ cat1, insertRefRecord cat rec = .ok cat1 := by
  unfold insertRefRecord
  rw [h]
  dsimp only
  cases lookupA cat.nameTickers rec.name <;> exact ⟨_, rfl⟩

/-! ### Record-loop lemmas -/

theorem masterLoop_zero {decode : List Nat → Except CatErr RefRecord} {recLen : Nat}
    {hrec : 0 < recLen} {path : String} {cat : Catalog} {body : List Nat}
    (h : body.length = 0) :
    masterLoop decode recLen hrec path cat body =
      ({ cat with masterFiles := cat.masterFiles ++ [path] }, none) := by
  rw [masterLoop.eq_def, dif_pos h]

theorem masterLoop_short {decode : List Nat → Except CatErr RefRecord} {recLen : Nat}
    {hrec : 0 < recLen} {path : String} {cat : Catalog} {body : List Nat}
    (h0 : 0 < body.length) (hlt : body.length < recLen) :
    masterLoop decode recLen hrec path cat body = (cat, some .truncated) := by
  rw [masterLoop.eq_def, dif_neg (by omega), dif_pos hlt]

theorem masterLoop_cons {decode : List Nat → Except CatErr RefRecord} {recLen : Nat}
    {hrec : 0 < recLen} {path : String} {cat cat1 : Catalog} {chunk rest : List Nat}
    {rec : RefRecord} (hlen : chunk.length = recLen) (hdec : decode chunk = .ok rec)
    (hins : insertRefRecord cat rec = .ok cat1) :
    masterLoop decode recLen hrec path cat (chunk ++ rest) =
      masterLoop decode recLen hrec path cat1 rest := by
  have hl : (chunk ++ rest).length = recLen + rest.length := by simp [hlen]
  rw [masterLoop.eq_def, dif_neg (by omega), dif_neg (by omega),
    List.take_left' hlen, hdec]
  dsimp only
  rw [hins]
  dsimp only
  rw [show (chunk ++ rest).drop recLen = rest from hlen ▸ List.drop_left chunk rest]

theorem masterLoop_state {decode : List Nat → Except CatErr RefRecord} {recLen : Nat}
    {hrec : 0 < recLen} {path : String} :
    ∀ cat body cat2 res, masterLoop decode recLen hrec path cat body = (cat2, res) →
      (res = none → cat2.masterFiles = cat.masterFiles ++ [path]) ∧
      (res.isSome → cat2.masterFiles = cat.masterFiles) ∧
      (∀ s r, lookupA cat.tickerRefdata s = some r → lookupA cat2.tickerRefdata s = some r) ∧
      (∀ n s, s ∈ (lookupA cat.nameTickers n).getD [] →
        s ∈ (lookupA cat2.nameTickers n).getD []) := by
  intro cat body
  induction cat, body using masterLoop.induct decode recLen hrec path with
  | case1 cat body h0 =>
    intro cat2 res heq
    rw [masterLoop_zero h0] at heq
    injection heq with h1 h2
    subst h1
    subst h2
    exact ⟨fun _ => rfl, fun hs => by simp at hs, fun s r hs => hs, fun n s hs => hs⟩
  | case2 cat body h0 hlt =>
    intro cat2 res heq
    rw [masterLoop_short (by omega) hlt] at heq
    injection heq with h1 h2
    subst h1
    subst h2
    exact ⟨fun hn => by simp at hn, fun _ => rfl, fun s r hs => hs, fun n s hs => hs⟩
  | case3 cat body h0 hlt e hdec =>
    intro cat2 res heq
    rw [masterLoop.eq_def, dif_neg h0, dif_neg hlt, hdec] at heq
    dsimp only at heq
    injection heq with h1 h2
    subst h1
    subst h2
    exact ⟨fun hn => by simp at hn, fun _ => rfl, fun s r hs => hs, fun n s hs => hs⟩
  | case4 cat body h0 hlt rec hdec e hins =>
    intro cat2 res heq
    rw [masterLoop.eq_def, dif_neg h0, dif_neg hlt, hdec] at heq
    dsimp only at heq
    rw [hins] at heq
    dsimp only at heq
    injection heq with h1 h2
    subst h1
    subst h2
    exact ⟨fun hn => by simp at hn, fun _ => rfl, fun s r hs => hs, fun n s hs => hs⟩
  | case5 cat body h0 hlt rec hdec cat1 hins ih =>
    intro cat2 res heq
    rw [masterLoop.eq_def, dif_neg h0, dif_neg hlt, hdec] at heq
    dsimp only at heq
    rw [hins] at heq
    dsimp only at heq
    obtain ⟨hi1, hi2, hi3, hi4, hi5, hi6⟩ := insertRefRecord_ok_props hins
    obtain ⟨g1, g2, g3, g4⟩ := ih cat2 res heq
    refine ⟨fun hn => ?_, fun hs => ?_, fun s r hs => g3 s r (hi2 s r hs), fun n s hs =>
      g4 n s (hi6 n s hs)⟩
    · rw [g1 hn, hi5]
    · rw [g2 hs, hi5]

theorem dataLoop_zero {shape recNum : Nat} {body : List Nat} (h : body.length = 0) :
    dataLoop shape recNum body = .ok [] := by
  rw [dataLoop.eq_def, dif_pos h]

theorem dataLoop_short {shape recNum : Nat} {body : List Nat}
    (h0 : 0 < body.length) (hlt : body.length < 28) :
    dataLoop shape recNum body = .error .truncated := by
  rw [dataLoop.eq_def, dif_neg (by omega), dif_pos hlt]

theorem dataLoop_flatten {records : List (List Nat)} {bars : List Bar} {shape recNum : Nat}
    (hlen : ∀ r ∈ records, r.length = 28) (hdec : decodeBars records = .ok bars)
    (hle : recNum + records.length ≤ shape) :
    dataLoop shape recNum records.flatten = .ok bars := by
  induction records generalizing bars recNum with
  | nil =>
    rw [decodeBars] at hdec
    obtain rfl := (Except.ok.inj hdec).symm
    exact dataLoop_zero (by simp)
  | cons r rs ih =>
    rw [decodeBars] at hdec
    cases h1 : decodeBarRecord r with
    | error e => rw [h1] at hdec; exact absurd hdec (by simp)
    | ok b =>
      rw [h1] at hdec
      dsimp only at hdec
      cases h2 : decodeBars rs with
      | error e => rw [h2] at hdec; exact absurd hdec (by simp)
      | ok bs =>
        rw [h2] at hdec
        dsimp only at hdec
        obtain rfl := (Except.ok.inj hdec).symm
        have hr : r.length = 28 := hlen r (List.mem_cons_self _ _)
        have hl : (r :: rs).flatten.length = 28 + rs.flatten.length := by
          simp [List.flatten_cons, hr]
        rw [List.flatten_cons, dataLoop.eq_def, dif_neg (by rw [List.length_append, hr]; omega),
          dif_neg (by rw [List.length_append, hr]; omega), List.take_left' hr, h1]
        dsimp only
        rw [if_pos (by simp at hle; omega)]
        rw [show (r ++ rs.flatten).drop 28 = rs.flatten from hr ▸ List.drop_left r rs.flatten]
        rw [ih (fun q hq => hlen q (List.mem_cons_of_mem _ hq)) h2 (by simp at hle; omega)]

theorem decodeBars_length {records : List (List Nat)} {bars : List Bar}
    (h : decodeBars records = .ok bars) : bars.length = records.length := by
  induction records generalizing bars with
  | nil =>
    rw [decodeBars] at h
    obtain rfl := (Except.ok.inj h).symm
    rfl
  | cons r rs ih =>
    rw [decodeBars] at h
    cases h1 : decodeBarRecord r with
    | error e => rw [h1] at h; exact absurd h (by simp)
    | ok b =>
      rw [h1] at h
      dsimp only at h
      cases h2 : decodeBars rs with
      | error e => rw [h2] at h; exact absurd h (by simp)
      | ok bs =>
        rw [h2] at h
        dsimp only at h
        obtain rfl := (Except.ok.inj h).symm
        simp [ih h2]

theorem pyFind_eq_neg_one {s : List Nat} {c : Nat} (h : ∀ b ∈ s, b ≠ c) : pyFind s c = -1 := by
  induction s with
  | nil => rfl
  | cons a t ih =>
    rw [pyFind, if_neg (h a (List.mem_cons_self _ _))]
    rw [ih (fun b hb => h b (List.mem_cons_of_mem _ hb))]
    rfl

theorem catalogWF_empty : catalogWF emptyCatalog := by
  intro p hp
  simp [emptyCatalog] at hp

theorem insertRefRecord_wf {cat : Catalog} {rec : RefRecord} {cat1 : Catalog}
    (hwf : catalogWF cat) (h : insertRefRecord cat rec = .ok cat1) : catalogWF cat1 := by
  unfold insertRefRecord at h
  cases hsym : lookupA cat.tickerRefdata rec.symbol with
  | some old => rw [hsym] at h; exact absurd h (by simp)
  | none =>
    rw [hsym] at h
    dsimp only at h
    cases hname : lookupA cat.nameTickers rec.name with
    | some lst =>
      rw [hname] at h
      dsimp only at h
      obtain rfl := (Except.ok.inj h).symm
      intro p hp
      dsimp only at hp ⊢
      rcases mem_updateA hp with hmem | heq
      · obtain ⟨hne, hall⟩ := hwf p hmem
        refine ⟨hne, fun s hs => ?_⟩
        obtain ⟨r, hr⟩ := Option.isSome_iff_exists.mp (hall s hs)
        simp [lookupA_append_some _ hr]
      · subst heq
        refine ⟨by simp, fun s hs => ?_⟩
        rcases List.mem_append.mp hs with hs1 | hs2
        · obtain ⟨_, hall⟩ := hwf _ (lookupA_mem hname)
          obtain ⟨r, hr⟩ := Option.isSome_iff_exists.mp (hall s hs1)
          simp [lookupA_append_some _ hr]
        · rw [List.mem_singleton.mp hs2]
          simp [lookupA_append_self rec hsym]
    | none =>
      rw [hname] at h
      dsimp only at h
      obtain rfl := (Except.ok.inj h).symm
      intro p hp
      dsimp only at hp ⊢
      rcases List.mem_append.mp hp with hmem | heq
      · obtain ⟨hne, hall⟩ := hwf p hmem
        refine ⟨hne, fun s hs => ?_⟩
        obtain ⟨r, hr⟩ := Option.isSome_iff_exists.mp (hall s hs)
        simp [lookupA_append_some _ hr]
      · rw [List.mem_singleton.mp heq]
        refine ⟨by simp, fun s hs => ?_⟩
        rw [List.mem_singleton.mp hs]
        simp [lookupA_append_self rec hsym]

/-! ### Truncation-toward-zero lemmas -/

theorem ratTrunc_nonneg {q : ℚ} (h : 0 ≤ q) : ratTrunc q = ⌊q⌋ := by
  rw [ratTrunc, if_pos h]

theorem ratTrunc_nonpos {q : ℚ} (h : q < 0) : ratTrunc q ≤ 0 := by
  rw [ratTrunc, if_neg (not_le.mpr h)]
  have : (0 : ℚ) ≤ -q := by linarith
  have := Int.floor_nonneg.mpr this
  omega

theorem pytrunc_nonneg {a b : Int} (h : 0 ≤ a) : pytrunc a b = a / b := by
  rw [pytrunc, if_pos h]

theorem pytrunc_nonpos {a b : Int} (hb : 0 < b) (h : a ≤ 0) : pytrunc a b ≤ 0 := by
  rw [pytrunc]
  by_cases h0 : 0 ≤ a
  · rw [if_pos h0]
    have ha : a = 0 := le_antisymm h h0
    simp [ha]
  · rw [if_neg h0]
    have := Int.ediv_nonneg (by omega : (0 : Int) ≤ -a) (le_of_lt hb)
    omega

/-! ### Claim theorems -/

/-- Claim C3: a 4-byte buffer with zero exponent byte decodes to exactly 0.0
(the all-zero IEEE pattern, value 0) whatever the three mantissa bytes hold,
and the decoder is total on 4-byte inputs. -/
theorem c3_mbf_zero_exponent (b0 b1 b2 : Nat) :
    fmsbin2ieee [b0, b1, b2, 0] = (0, 0, 0, 0) ∧
    msDecodeVal [b0, b1, b2, 0] = some 0 ∧
    ∀ b3 : Nat, ∃ r : Nat × Nat × Nat × Nat, fmsbin2ieee [b0, b1, b2, b3] = r := by
  refine ⟨rfl, ?_, fun b3 => ⟨_, rfl⟩⟩
  show ieeeVal (0, 0, 0, 0) = some 0
  simp only [ieeeVal]
  norm_num

/-- Claim C10: on a fixed-width field buffer containing no NUL byte,
`strip_null` returns the buffer with its final byte removed (Python
`find` returns -1 and the slice `[0:-1]` drops the last byte). -/
theorem c10_strip_null_full_field (s : List Nat) (h : ∀ b ∈ s, b ≠ 0) :
    strip_null s = s.dropLast := by
  rw [strip_null, pyFind_eq_neg_one h, pySliceTo, if_pos (by norm_num),
    List.dropLast_eq_take]
  congr 1
  omega

/-- Witness for claim C10 at the NUL-free buffer `[72, 73]`. -/
theorem c10_strip_null_full_field_witness : strip_null [72, 73] = [72] := by
  rw [c10_strip_null_full_field [72, 73] (by decide)]
  rfl

/-- Claim C2 as stated is false at exponent byte 1: the arithmetic right shift
of the negative `ieee_exp = -1` keeps its sign bits, so the assembled top byte
is 255 (sign bit set although bit 7 of `m1` is clear, giving negative
infinity), while the described assembly yields 127. -/
theorem c2_mbf_assembly_counterexample :
    fmsbin2ieee [0, 0, 0, 1] = (0, 0, 128, 255) ∧
    mbfDecodeSpec [0, 0, 0, 1] = (0, 0, 128, 127) ∧
    fmsbin2ieee [0, 0, 0, 1] ≠ mbfDecodeSpec [0, 0, 0, 1] := by
  refine ⟨by decide, by decide, by decide⟩

/-- Claim C2 (amended): for every 4-byte buffer whose exponent byte is at
least 2, the decoder produces exactly the byte assembly the specification
describes: sign from bit 7 of `m1`, IEEE exponent `e - 2` split with its high
7 bits in the top byte and its low bit in the top bit of the next byte, the
remaining 7 bits of `m1` as high mantissa bits, and `m2`, `m3` copied. -/
theorem c2_mbf_assembly (m3 m2 m1 e : Nat) (h3 : m3 < 256) (h2m : m2 < 256)
    (h1m : m1 < 256) (he : e < 256) (hge : 2 ≤ e) :
    fmsbin2ieee [m3, m2, m1, e] = mbfDecodeSpec [m3, m2, m1, e] := by
  have g3 : [m3, m2, m1, e].getD 3 0 = e := rfl
  have g2 : [m3, m2, m1, e].getD 2 0 = m1 := rfl
  have g1 : [m3, m2, m1, e].getD 1 0 = m2 := rfl
  have g0 : [m3, m2, m1, e].getD 0 0 = m3 := rfl
  unfold fmsbin2ieee mbfDecodeSpec
  rw [g0, g1, g2, g3, if_neg (by omega)]
  dsimp only
  simp only [Prod.mk.injEq]
  refine ⟨trivial, trivial, ?_, ?_⟩
  · congr 1
    omega
  · congr 1
    omega

/-- Witness for claim C2 at the encoding of 1200115.0
(bytes `98 7F 12 95`), whose assembled IEEE pattern is `98 7F 92 49`. -/
theorem c2_mbf_assembly_witness :
    fmsbin2ieee [152, 127, 18, 149] = mbfDecodeSpec [152, 127, 18, 149] ∧
    fmsbin2ieee [152, 127, 18, 149] = (152, 127, 146, 73) :=
  ⟨c2_mbf_assembly 152 127 18 149 (by norm_num) (by norm_num) (by norm_num)
    (by norm_num) (by norm_num), by decide⟩

/-- Claim C5 as stated is false: the duplicate-symbol error carries
`old_record[5]` and `filename`, the DATA-file paths of the colliding records
(`d1/F1.dat`, `d2/F7.dat`), not the index-file paths (`d1/emaster`,
`d2/emaster`). -/
theorem c5_duplicate_symbol_counterexample :
    insertRefRecord c5cat c5new = .error (.duplicateTicker "d1/F1.dat" "d2/F7.dat") ∧
    insertRefRecord c5cat c5new ≠ .error (.duplicateTicker "d1/emaster" "d2/emaster") := by
  refine ⟨by decide, by decide⟩

/-- Claim C5 (amended): inserting a record whose symbol is already present
always fails — never overwriting the stored record — with a duplicate-ticker
error naming the data-file path of the previously stored record and the
data-file path of the new record (each residing in the directory of its index
file). -/
theorem c5_duplicate_symbol (cat : Catalog) (rec old : RefRecord)
    (h : lookupA cat.tickerRefdata rec.symbol = some old) :
    insertRefRecord cat rec = .error (.duplicateTicker old.filename rec.filename) ∧
    ∀ cat1, insertRefRecord cat rec ≠ .ok cat1 := by
  refine ⟨insertRefRecord_dup h, fun cat1 hc => ?_⟩
  rw [insertRefRecord_dup h] at hc
  exact absurd hc (by simp)

/-- Witness for claim C5 at the fixture duplicate insertion. -/
theorem c5_duplicate_symbol_witness :
    insertRefRecord c5cat c5new = .error (.duplicateTicker c5old.filename c5new.filename) :=
  (c5_duplicate_symbol c5cat c5new c5old (by decide)).1

/-- Claim C7: inserting a record whose name already exists never fails on
account of the name — with a fresh symbol the insertion succeeds, the symbol is
appended to the existing ticker list of that name (preserving encounter
order), and every other name binding is untouched. -/
theorem c7_name_accumulation (cat : Catalog) (rec : RefRecord)
    (h : lookupA cat.tickerRefdata rec.symbol = none) :
    ∃ cat1, insertRefRecord cat rec = .ok cat1 ∧
      lookupA cat1.nameTickers rec.name =
        some ((lookupA cat.nameTickers rec.name).getD [] ++ [rec.symbol]) ∧
      ∀ n, n ≠ rec.name → lookupA cat1.nameTickers n = lookupA cat.nameTickers n := by
  obtain ⟨cat1, hc⟩ := insertRefRecord_ok_of_fresh h
  obtain ⟨_, _, h3, h4, _, _⟩ := insertRefRecord_ok_props hc
  exact ⟨cat1, hc, h3, h4⟩

/-- Witness for claim C7: inserting the second record named `[78]` yields the
catalog binding the name to both symbols in encounter order. -/
theorem c7_name_accumulation_witness :
    insertRefRecord c7cat c7rec = .ok c7cat1 ∧
    lookupA c7cat1.nameTickers c7rec.name =
      some ((lookupA c7cat.nameTickers c7rec.name).getD [] ++ [c7rec.symbol]) := by
  obtain ⟨cat1, hc, h3, _⟩ := c7_name_accumulation c7cat c7rec (by decide)
  have he : cat1 = c7cat1 := by
    have hc2 := hc
    rw [show insertRefRecord c7cat c7rec = .ok c7cat1 from by decide] at hc2
    exact (Except.ok.inj hc2).symm
  subst he
  exact ⟨hc, h3⟩

/-- Claim C6: on a catalog satisfying the reachable-state invariant
(`catalogWF`, established by `catalogWF_empty` and `insertRefRecord_wf`),
`get_reference_data` returns the ticker record directly for a known ticker;
otherwise a name bound to exactly one ticker yields that ticker record, a name
bound to more than one fails with the ambiguous error naming all candidates,
and anything else fails with the not-found error. -/
theorem c6_lookup_by_id (cat : Catalog) (assetId : List Nat) (hwf : catalogWF cat) :
    (∀ r, lookupA cat.tickerRefdata assetId = some r →
      get_reference_data cat assetId = .ok r) ∧
    (lookupA cat.tickerRefdata assetId = none →
      ∀ lst, lookupA cat.nameTickers assetId = some lst →
        (∀ s, lst = [s] → ∃ r, lookupA cat.tickerRefdata s = some r ∧
          get_reference_data cat assetId = .ok r) ∧
        (1 < lst.length →
          get_reference_data cat assetId = .error (.ambiguous assetId lst))) ∧
    (lookupA cat.tickerRefdata assetId = none → lookupA cat.nameTickers assetId = none →
      get_reference_data cat assetId = .error (.notFound assetId)) := by
  refine ⟨?_, ?_, ?_⟩
  · intro r hr
    unfold get_reference_data
    rw [hr]
  · intro ht lst hl
    constructor
    · intro s hs
      subst hs
      obtain ⟨hne, hall⟩ := hwf _ (lookupA_mem hl)
      obtain ⟨r, hr⟩ := Option.isSome_iff_exists.mp (hall s (by simp))
      refine ⟨r, hr, ?_⟩
      unfold get_reference_data
      rw [ht]
      dsimp only
      rw [hl]
      dsimp only
      rw [if_pos (by simp)]
      have hg : ([s].getD 0 []) = s := rfl
      rw [hg, hr]
    · intro hlen
      unfold get_reference_data
      rw [ht]
      dsimp only
      rw [hl]
      dsimp only
      rw [if_neg (by omega)]
  · intro ht hn
    unfold get_reference_data
    rw [ht]
    dsimp only
    rw [hn]

/-- Witness for claim C6: ticker hit, unique-name hit, ambiguous name, and
unknown identifier, on the fixture catalog. -/
theorem c6_lookup_by_id_witness :
    get_reference_data c6cat [65] = .ok c6recA ∧
    get_reference_data c6cat [79] = .ok c6recC ∧
    get_reference_data c6cat [78] = .error (.ambiguous [78] [[65], [66]]) ∧
    get_reference_data c6cat [99] = .error (.notFound [99]) := by
  have hwf : catalogWF c6cat := by decide
  refine ⟨?_, ?_, ?_, ?_⟩
  · exact (c6_lookup_by_id c6cat [65] hwf).1 c6recA (by decide)
  · obtain ⟨r, hr, hg⟩ :=
      ((c6_lookup_by_id c6cat [79] hwf).2.1 (by decide) [[67]] (by decide)).1 [67] rfl
    have hr2 : lookupA c6cat.tickerRefdata [67] = some c6recC := by decide
    rw [hr2] at hr
    obtain rfl := (Option.some.inj hr).symm
    exact hg
  · exact ((c6_lookup_by_id c6cat [78] hwf).2.1 (by decide) [[65], [66]] (by decide)).2
      (by norm_num)
  · exact (c6_lookup_by_id c6cat [99] hwf).2.2 (by decide) (by decide)

/-- Claim C8: in both readers, a non-empty read shorter than the fixed record
size fails the operation with the truncation error, while a zero-length read
ends iteration normally (for an index file, recording the merged path; for a
data file, closing the bar sequence). -/
theorem c8_truncation (decode : List Nat → Except CatErr RefRecord) (recLen : Nat)
    (hrec : 0 < recLen) (path : String) (cat : Catalog) (body : List Nat)
    (shape recNum : Nat) :
    (0 < body.length → body.length < recLen →
      masterLoop decode recLen hrec path cat body = (cat, some .truncated)) ∧
    (body.length = 0 →
      masterLoop decode recLen hrec path cat body =
        ({ cat with masterFiles := cat.masterFiles ++ [path] }, none)) ∧
    (0 < body.length → body.length < 28 → dataLoop shape recNum body = .error .truncated) ∧
    (body.length = 0 → dataLoop shape recNum body = .ok []) :=
  ⟨fun h0 hlt => masterLoop_short h0 hlt, fun h0 => masterLoop_zero h0,
    fun h0 hlt => dataLoop_short h0 hlt, fun h0 => dataLoop_zero h0⟩

/-- Witness for claim C8: a one-byte tail against record size 2 truncates the
index-record loop, a one-byte tail truncates the 28-byte data loop, and an
empty buffer ends the data loop normally. -/
theorem c8_truncation_witness :
    masterLoop c8decode 2 (by norm_num) "p" emptyCatalog [7] =
      (emptyCatalog, some .truncated) ∧
    dataLoop 3 0 [7] = .error .truncated ∧
    dataLoop 3 0 [] = .ok [] :=
  ⟨(c8_truncation c8decode 2 (by norm_num) "p" emptyCatalog [7] 3 0).1
      (by norm_num) (by norm_num),
    (c8_truncation c8decode 2 (by norm_num) "p" emptyCatalog [7] 3 0).2.2.1
      (by norm_num) (by norm_num),
    (c8_truncation c8decode 2 (by norm_num) "p" emptyCatalog [] 3 0).2.2.2 rfl⟩

/-- Claim C9: when a reader raises after inserting records, the state keeps
every record inserted before the failure (in particular a record inserted from
an earlier chunk stays in the ticker index and its symbol in its name binding),
and the path joins the merged-file list only when the whole body was processed
without error — shown for the shared record loop and for both
`read_emaster_file` and `read_xmaster_file`. -/
theorem c9_partial_merge (decode : List Nat → Except CatErr RefRecord) (recLen : Nat)
    (hrec : 0 < recLen) (path : String) :
    (∀ cat body cat2 e, masterLoop decode recLen hrec path cat body = (cat2, some e) →
      cat2.masterFiles = cat.masterFiles) ∧
    (∀ cat body cat2, masterLoop decode recLen hrec path cat body = (cat2, none) →
      cat2.masterFiles = cat.masterFiles ++ [path]) ∧
    (∀ cat chunk rest rec cat1 cat2 e, chunk.length = recLen → decode chunk = .ok rec →
      insertRefRecord cat rec = .ok cat1 →
      masterLoop decode recLen hrec path cat (chunk ++ rest) = (cat2, some e) →
      lookupA cat2.tickerRefdata rec.symbol = some rec ∧
      rec.symbol ∈ (lookupA cat2.nameTickers rec.name).getD []) ∧
    (∀ cat pth bs cat2 e, read_emaster_file cat pth bs = (cat2, some e) →
      cat2.masterFiles = cat.masterFiles) ∧
    (∀ cat pth bs cat2 e, read_xmaster_file cat pth bs = (cat2, some e) →
      cat2.masterFiles = cat.masterFiles) := by
  refine ⟨?_, ?_, ?_, ?_, ?_⟩
  · intro cat body cat2 e h
    exact (masterLoop_state cat body cat2 _ h).2.1 (by simp)
  · intro cat body cat2 h
    exact (masterLoop_state cat body cat2 _ h).1 rfl
  · intro cat chunk rest rec cat1 cat2 e hlen hdec hins hml
    rw [masterLoop_cons hlen hdec hins] at hml
    obtain ⟨hi1, _, hi3, _, _, _⟩ := insertRefRecord_ok_props hins
    obtain ⟨_, _, g3, g4⟩ := masterLoop_state cat1 rest cat2 _ hml
    refine ⟨g3 rec.symbol rec hi1, g4 rec.name rec.symbol ?_⟩
    rw [hi3]
    simp
  · intro cat pth bs cat2 e h
    unfold read_emaster_file at h
    by_cases h1 : pth ∈ cat.masterFiles
    · rw [if_pos h1] at h
      injection h with ha hb
      rw [← ha]
    · rw [if_neg h1] at h
      by_cases h2 : bs.length < 192
      · rw [if_pos h2] at h
        injection h with ha hb
        rw [← ha]
      · rw [if_neg h2] at h
        dsimp only at h
        exact (masterLoop_state _ _ cat2 _ h).2.1 (by simp)
  · intro cat pth bs cat2 e h
    unfold read_xmaster_file at h
    by_cases h1 : pth ∈ cat.masterFiles
    · rw [if_pos h1] at h
      injection h with ha hb
      rw [← ha]
    · rw [if_neg h1] at h
      by_cases h2 : bs.length < 150
      · rw [if_pos h2] at h
        injection h with ha hb
        rw [← ha]
      · rw [if_neg h2] at h
        by_cases h3 : le16 bs 10 ≠ le16 bs 14
        · rw [if_pos h3] at h
          injection h with ha hb
          rw [← ha]
        · rw [if_neg h3] at h
          dsimp only at h
          exact (masterLoop_state _ _ cat2 _ h).2.1 (by simp)

/-- Witness for claim C9: merging two identical one-byte records with record
size 1 inserts the first and fails on the second with a duplicate-ticker
error; the first record is still indexed in the final state. -/
theorem c9_partial_merge_witness :
    lookupA c9cat1.tickerRefdata c9rec.symbol = some c9rec ∧
    c9rec.symbol ∈ (lookupA c9cat1.nameTickers c9rec.name).getD [] := by
  have hml : masterLoop c9decode 1 (by norm_num) "p" emptyCatalog ([0] ++ [0]) =
      (c9cat1, some (.duplicateTicker "d/F1.dat" "d/F1.dat")) := by
    rw [@masterLoop_cons c9decode 1 (by norm_num) "p" emptyCatalog c9cat1 [0] [0] c9rec rfl rfl
      (show insertRefRecord emptyCatalog c9rec = .ok c9cat1 from by decide)]
    rw [masterLoop.eq_def, dif_neg (by norm_num), dif_neg (by norm_num)]
    have h1 : [(0 : Nat)].take 1 = [0] := rfl
    rw [h1, show c9decode [0] = .ok c9rec from rfl]
    dsimp only
    rw [show insertRefRecord c9cat1 c9rec =
      .error (.duplicateTicker "d/F1.dat" "d/F1.dat") from by decide]
  exact (c9_partial_merge c9decode 1 (by norm_num) "p").2.2.1 emptyCatalog [0] [0] c9rec
    c9cat1 c9cat1 _ rfl rfl (by decide) hml

/-- Claim C4: with `yyyymmdd = ⌊v + 19000000⌋` split as `year = yyyymmdd / 10000`,
`month = yyyymmdd % 10000 / 100`, `day = yyyymmdd % 100`, the codec returns
1900-01-01 on the (1900, 0, 0) sentinel, and on every other combination either
returns exactly the valid calendar date (year, month, day) or fails with the
invalid-date error — never a default.  (The code truncates toward zero where
the claim floors; both agree whenever a date is returned, since a returned
date forces a positive `yyyymmdd`.) -/
theorem c4_from_offset_float (v : ℚ) :
    ((⌊v + 19000000⌋ / 10000 = 1900 ∧ ⌊v + 19000000⌋ % 10000 / 100 = 0 ∧
        ⌊v + 19000000⌋ % 100 = 0) →
      fmsfloat2date v = .ok ⟨1900, 1, 1⟩) ∧
    (¬(⌊v + 19000000⌋ / 10000 = 1900 ∧ ⌊v + 19000000⌋ % 10000 / 100 = 0 ∧
        ⌊v + 19000000⌋ % 100 = 0) →
      (fmsfloat2date v = .ok ⟨⌊v + 19000000⌋ / 10000, ⌊v + 19000000⌋ % 10000 / 100,
          ⌊v + 19000000⌋ % 100⟩ ∧
        dateOK (⌊v + 19000000⌋ / 10000) (⌊v + 19000000⌋ % 10000 / 100)
          (⌊v + 19000000⌋ % 100)) ∨
      fmsfloat2date v = .error .invalidDate) := by
  have hpos : 1 ≤ ratTrunc (v + 19000000) → ratTrunc (v + 19000000) = ⌊v + 19000000⌋ := by
    intro h1
    by_cases hq : 0 ≤ v + 19000000
    · exact ratTrunc_nonneg hq
    · have := ratTrunc_nonpos (not_le.mp hq)
      omega
  have hy1 : ∀ a : Int, 1 ≤ pytrunc a 10000 → 1 ≤ a := by
    intro a h1
    by_contra hc
    have := pytrunc_nonpos (by norm_num : (0 : Int) < 10000) (by omega : a ≤ 0)
    omega
  constructor
  · rintro ⟨hy, hm, hd⟩
    have hF : ⌊v + 19000000⌋ = 19000000 := by omega
    have hq : (0 : ℚ) ≤ v + 19000000 := by
      have h19 : ((19000000 : Int) : ℚ) ≤ v + 19000000 := Int.le_floor.mp (le_of_eq hF.symm)
      push_cast at h19
      linarith
    have hT : ratTrunc (v + 19000000) = 19000000 := by rw [ratTrunc_nonneg hq, hF]
    show fmsfloat2date v = .ok ⟨1900, 1, 1⟩
    simp only [fmsfloat2date, hT]
    rw [if_pos (by decide)]
  · intro hns
    by_cases hcode : pytrunc (ratTrunc (v + 19000000)) 10000 = 1900 ∧
        pytrunc (ratTrunc (v + 19000000) -
          pytrunc (ratTrunc (v + 19000000)) 10000 * 10000) 100 = 0 ∧
        ratTrunc (v + 19000000) % 100 = 0
    · exfalso
      obtain ⟨hy, hm, hd⟩ := hcode
      have hT1 : 1 ≤ ratTrunc (v + 19000000) := hy1 _ (by omega)
      have hTF := hpos hT1
      rw [hTF] at hy hm hd
      rw [pytrunc_nonneg (by omega : (0 : Int) ≤ ⌊v + 19000000⌋)] at hy
      rw [pytrunc_nonneg (by omega : (0 : Int) ≤ ⌊v + 19000000⌋)] at hm
      rw [pytrunc_nonneg (by omega :
        (0 : Int) ≤ ⌊v + 19000000⌋ - ⌊v + 19000000⌋ / 10000 * 10000)] at hm
      exact hns ⟨hy, by omega, hd⟩
    · have hunf : fmsfloat2date v = mkDate (pytrunc (ratTrunc (v + 19000000)) 10000)
          (pytrunc (ratTrunc (v + 19000000) -
            pytrunc (ratTrunc (v + 19000000)) 10000 * 10000) 100)
          (ratTrunc (v + 19000000) % 100) := by
        simp only [fmsfloat2date]
        rw [if_neg hcode]
      by_cases hok : dateOK (pytrunc (ratTrunc (v + 19000000)) 10000)
          (pytrunc (ratTrunc (v + 19000000) -
            pytrunc (ratTrunc (v + 19000000)) 10000 * 10000) 100)
          (ratTrunc (v + 19000000) % 100)
      · left
        have hT1 : 1 ≤ ratTrunc (v + 19000000) := by
          refine hy1 _ ?_
          obtain ⟨h1, _⟩ := hok
          omega
        have hTF := hpos hT1
        have hFpos : (1 : Int) ≤ ⌊v + 19000000⌋ := hTF ▸ hT1
        have ey : pytrunc (ratTrunc (v + 19000000)) 10000 = ⌊v + 19000000⌋ / 10000 := by
          rw [hTF, pytrunc_nonneg (by omega : (0 : Int) ≤ ⌊v + 19000000⌋)]
        have em : pytrunc (ratTrunc (v + 19000000) -
            pytrunc (ratTrunc (v + 19000000)) 10000 * 10000) 100 =
            ⌊v + 19000000⌋ % 10000 / 100 := by
          rw [hTF, pytrunc_nonneg (by omega : (0 : Int) ≤ ⌊v + 19000000⌋),
            pytrunc_nonneg (by omega :
              (0 : Int) ≤ ⌊v + 19000000⌋ - ⌊v + 19000000⌋ / 10000 * 10000)]
          omega
        have ed : ratTrunc (v + 19000000) % 100 = ⌊v + 19000000⌋ % 100 := by rw [hTF]
        rw [em, ey, ed] at hunf hok
        rw [mkDate, if_pos hok] at hunf
        exact ⟨hunf, hok⟩
      · right
        rw [hunf, mkDate, if_neg hok]

/-- Witness for claim C4 at 1200115.0, which decodes to 2020-01-15. -/
theorem c4_from_offset_float_witness :
    (fmsfloat2date 1200115 = .ok ⟨2020, 1, 15⟩ ∧ dateOK 2020 1 15) ∨
    fmsfloat2date 1200115 = .error .invalidDate := by
  have hfl : ⌊(1200115 : ℚ) + 19000000⌋ = (20200115 : Int) :=
    Int.floor_eq_iff.mpr ⟨by norm_num, by norm_num⟩
  have h := (c4_from_offset_float 1200115).2 (by rw [hfl]; decide)
  rw [hfl, show (20200115 : Int) / 10000 = 2020 from by decide,
    show (20200115 : Int) % 10000 / 100 = 1 from by decide,
    show (20200115 : Int) % 100 = 15 from by decide] at h
  exact h

theorem fmsfloat2date_zero : fmsfloat2date 0 = .ok ⟨1900, 1, 1⟩ := by
  have hfl : ⌊(0 : ℚ) + 19000000⌋ = (19000000 : Int) :=
    Int.floor_eq_iff.mpr ⟨by norm_num, by norm_num⟩
  have hT : ratTrunc ((0 : ℚ) + 19000000) = 19000000 := by
    rw [ratTrunc_nonneg (by norm_num), hfl]
  simp only [fmsfloat2date, hT]
  rw [if_pos (by decide)]

theorem msDecodeVal_zero : msDecodeVal [0, 0, 0, 0] = some 0 := by
  show ieeeVal (0, 0, 0, 0) = some 0
  simp only [ieeeVal]
  norm_num

theorem decodeBarRecord_zero : decodeBarRecord c1rec = .ok c1barZero := by
  have h0 : sliceLen c1rec 0 4 = [0, 0, 0, 0] := rfl
  have h4 : sliceLen c1rec 4 4 = [0, 0, 0, 0] := rfl
  have h8 : sliceLen c1rec 8 4 = [0, 0, 0, 0] := rfl
  have h12 : sliceLen c1rec 12 4 = [0, 0, 0, 0] := rfl
  have h16 : sliceLen c1rec 16 4 = [0, 0, 0, 0] := rfl
  have h20 : sliceLen c1rec 20 4 = [0, 0, 0, 0] := rfl
  have h24 : sliceLen c1rec 24 4 = [0, 0, 0, 0] := rfl
  rw [decodeBarRecord, h0, h4, h8, h12, h16, h20, h24]
  simp only [msDecodeVal_zero]
  rw [fmsfloat2date_zero]
  rfl

/-- Claim C1 (amended): on a data file whose header second field declares `N`
stored records and whose body consists of exactly `N - 1` whole 28-byte
records, each decoding successfully (bar list `bars`), `get_raw_data` returns
the array of length `N - 1` filled with exactly those bars in file order, each
bar field decoded through the MBF codec and the date additionally through the
offset-float date codec (that is what `decodeBarRecord`, hence `decodeBars`,
does). -/
theorem c1_read_series (j1 j2 N : Nat) (pad : List Nat) (records : List (List Nat))
    (bars : List Bar) (hpad : pad.length = 24) (hN : N < 65536)
    (hcount : records.length + 1 = N) (hlen : ∀ r ∈ records, r.length = 28)
    (hdec : decodeBars records = .ok bars) :
    get_raw_data (j1 :: j2 :: N % 256 :: N / 256 :: (pad ++ records.flatten)) =
      .ok (N - 1, bars) ∧ bars.length = N - 1 := by
  have hflen : (j1 :: j2 :: N % 256 :: N / 256 :: (pad ++ records.flatten)).length =
      28 + records.flatten.length := by
    simp [hpad]
    omega
  have ha : (j1 :: j2 :: N % 256 :: N / 256 :: (pad ++ records.flatten)).getD 2 0 =
      N % 256 := rfl
  have hb : (j1 :: j2 :: N % 256 :: N / 256 :: (pad ++ records.flatten)).getD 3 0 =
      N / 256 := rfl
  have hle16 : le16 (j1 :: j2 :: N % 256 :: N / 256 :: (pad ++ records.flatten)) 2 = N := by
    rw [le16, ha, hb]
    omega
  have hdrop : (j1 :: j2 :: N % 256 :: N / 256 :: (pad ++ records.flatten)).drop 28 =
      records.flatten := by
    show (pad ++ records.flatten).drop 24 = records.flatten
    rw [← hpad]
    exact List.drop_left _ _
  have hN0 : N ≠ 0 := by omega
  have hblen : bars.length = N - 1 := by
    rw [decodeBars_length hdec]
    omega
  refine ⟨?_, hblen⟩
  unfold get_raw_data
  rw [if_neg (by omega)]
  dsimp only
  rw [hle16, if_neg hN0, hdrop]
  rw [dataLoop_flatten hlen hdec (by omega : 0 + records.length ≤ N - 1)]

/-- Witness for claim C1: a file declaring 2 stored records with one all-zero
body record yields exactly that one decoded bar. -/
theorem c1_read_series_witness : get_raw_data c1okfile = .ok (1, [c1barZero]) := by
  have hdec : decodeBars [c1rec] = .ok [c1barZero] := by
    rw [decodeBars, decodeBarRecord_zero]
    rfl
  have h := (c1_read_series 0 0 2 (List.replicate 24 0) [c1rec] [c1barZero] rfl
    (by norm_num) rfl (fun r hr => by rw [List.mem_singleton.mp hr]; rfl) hdec).1
  exact h

/-- Claim C1 as stated is false: a file whose header declares 1 stored record
but whose body holds one whole 28-byte record makes the reader allocate an
array of length 0 and then raise `IndexError` on the first write, instead of
yielding 1 - 1 = 0 bars. -/
theorem c1_read_series_counterexample :
    get_raw_data c1file = .error .indexError ∧ get_raw_data c1file ≠ .ok (0, []) := by
  have hlen : c1file.length = 56 := rfl
  have hle : le16 c1file 2 = 1 := rfl
  have hdrop : c1file.drop 28 = c1rec := rfl
  have hrec28 : c1rec.length = 28 := rfl
  have htake : c1rec.take 28 = c1rec := rfl
  have hmain : get_raw_data c1file = .error .indexError := by
    unfold get_raw_data
    rw [if_neg (by rw [hlen]; norm_num)]
    dsimp only
    rw [hle, if_neg (by norm_num), hdrop]
    rw [dataLoop.eq_def, dif_neg (by rw [hrec28]; norm_num), dif_neg (by rw [hrec28]; norm_num),
      htake, decodeBarRecord_zero]
    dsimp only
    rw [if_neg (by norm_num)]
  exact ⟨hmain, by rw [hmain]; simp⟩

end Computrac
